import Mathlib

/-!
Verification development for the FinTrackr ingestion pipeline
(`trackr/expenses/services/etl_service.py`, `column_detector.py`,
`expenses/models.py`, `expenses/views.py`).

The Python code is shallowly embedded: pandas frames become lists of
records, cells become `Option String` (`none` models NaN), floats become
`Rat` (all amounts in play are exact decimals, and the only operations
used are sign tests and absolute value, which agree with IEEE floats on
such values), and regular-expression operations are implemented as
explicit character-list scans with the exact semantics of the Python
patterns they embed.
-/

namespace FinTrackr

/-! ## Character and string utilities -/

/-- Python whitespace class (`str.strip`, `str.split`, regex `\s`) restricted
to the ASCII range, which covers all inputs in this development. -/
def isPyWs (c : Char) : Bool :=
  c = ' ' || c = '\t' || c = '\n' || c = '\r' || c = '\x0b' || c = '\x0c'

/-- ASCII letter, the class matched by `(?i)[A-Z]` in the Python regexes. -/
def isAsciiLetter (c : Char) : Bool :=
  ('A' ≤ c && c ≤ 'Z') || ('a' ≤ c && c ≤ 'z')

/-- ASCII word character, the class `\w` used by the `\b` boundary. -/
def isWordChar (c : Char) : Bool :=
  isAsciiLetter c || c.isDigit || c = '_'

/-- Python `str.strip()` on a character list. -/
def stripChars (l : List Char) : List Char :=
  (l.dropWhile isPyWs).reverse.dropWhile isPyWs |>.reverse

/-- Python `str.strip()`. -/
def pyStrip (s : String) : String :=
  String.mk (stripChars s.toList)

/-- Lower-casing as Python `str.lower()` on ASCII data. -/
def lowerStr (s : String) : String :=
  String.mk (s.toList.map Char.toLower)

/-- Substring containment, Python `pat in hay`. -/
def strContains (hay pat : String) : Bool :=
  hay.toList.tails.any (fun t => pat.toList.isPrefixOf t)

/-- Worker for `collapseWs`: the flag records whether the previous character
was whitespace (so the run already emitted its single space). -/
def collapseWsAux : Bool → List Char → List Char
  | _, [] => []
  | afterWs, c :: rest =>
    if isPyWs c then
      if afterWs then collapseWsAux true rest
      else ' ' :: collapseWsAux true rest
    else c :: collapseWsAux false rest

/-- Collapse every run of whitespace into one space, regex `re.sub(r'\s+', ' ', s)`. -/
def collapseWs (l : List Char) : List Char :=
  collapseWsAux false l

/-- Split on a separator character; empty pieces are kept,
matching Python `str.split(sep)`. -/
def splitOnChar (sep : Char) (l : List Char) : List (List Char) :=
  go [] l
where
  go (acc : List Char) : List Char → List (List Char)
    | [] => [acc.reverse]
    | c :: rest =>
      if c = sep then acc.reverse :: go [] rest
      else go (c :: acc) rest

/-- Split at every character satisfying the predicate, keeping empty pieces. -/
def splitAtPred (p : Char → Bool) (l : List Char) : List (List Char) :=
  go [] l
where
  go (acc : List Char) : List Char → List (List Char)
    | [] => [acc.reverse]
    | c :: rest =>
      if p c then acc.reverse :: go [] rest
      else go (c :: acc) rest

/-- Python `str.split()`: split on whitespace runs, discarding empty pieces. -/
def pySplit (s : String) : List String :=
  ((splitAtPred isPyWs s.toList).filter (fun w => !w.isEmpty)).map String.mk

/-- All-digit parse of a character list into a natural number; `none` when the
list is empty or holds a non-digit. -/
def digitsToNat? (l : List Char) : Option Nat :=
  if l.isEmpty then none
  else if l.all Char.isDigit then
    some (l.foldl (fun acc c => 10 * acc + (c.toNat - 48)) 0)
  else none

/-- All-digit parse of a string. -/
def strToNat? (s : String) : Option Nat := digitsToNat? s.toList

/-! ## Calendar dates -/

/-- A calendar date as year, month, day fields. -/
structure Date where
  year : Nat
  month : Nat
  day : Nat
deriving DecidableEq, Repr

/-- Gregorian leap-year rule. -/
def isLeapYear (y : Nat) : Bool :=
  (y % 4 = 0 && y % 100 ≠ 0) || y % 400 = 0

/-- Number of days of month `m` in year `y`. -/
def daysInMonth (y m : Nat) : Nat :=
  if m = 2 then (if isLeapYear y then 29 else 28)
  else if m = 4 || m = 6 || m = 9 || m = 11 then 30
  else 31

/-- A date is valid when the month is 1..12 and the day fits the month. -/
def validDate (d : Date) : Bool :=
  1 ≤ d.month && d.month ≤ 12 && 1 ≤ d.day && d.day ≤ daysInMonth d.year d.month

/-- Build a date only when it is a valid calendar date. -/
def mkDate? (y m d : Nat) : Option Date :=
  if validDate ⟨y, m, d⟩ then some ⟨y, m, d⟩ else none

/-- Model of the external pandas date parser (`pd.to_datetime` on one cell)
under one fixed convention, per the spec's description of convention-based
column parsing: ISO `YYYY-MM-DD` parses the same under both conventions, and
a slash form `A/B/YYYY` reads `A/B` as month/day when `dayfirst = false` and
as day/month when `dayfirst = true`. Returns `none` when the text is not a
valid calendar date under the convention. -/
def parseConvFields (dayfirst : Bool) (t : List Char) : Option (Nat × Nat × Nat) :=
  match splitOnChar '-' t with
  | [ys, ms, ds] =>
    if ys.length = 4 && ms.length ≤ 2 && ds.length ≤ 2 then
      match digitsToNat? ys, digitsToNat? ms, digitsToNat? ds with
      | some y, some m, some d => some (y, m, d)
      | _, _, _ => none
    else none
  | _ =>
    match splitOnChar '/' t with
    | [as, bs, ys] =>
      if ys.length = 4 && as.length ≤ 2 && bs.length ≤ 2 then
        match digitsToNat? as, digitsToNat? bs, digitsToNat? ys with
        | some a, some b, some y =>
          if dayfirst then some (y, b, a) else some (y, a, b)
        | _, _, _ => none
      else none
    | _ => none

/-- The parser proper: extract year, month and day fields under the
convention, then accept only a valid calendar date. -/
def parseConv (dayfirst : Bool) (s : String) : Option Date :=
  (parseConvFields dayfirst (stripChars s.toList)).bind
    (fun f => mkDate? f.1 f.2.1 f.2.2)

/-- Zero-padded two-digit rendering. -/
def pad2 (n : Nat) : String := if n < 10 then "0" ++ toString n else toString n

/-- Zero-padded four-digit rendering. -/
def pad4 (n : Nat) : String :=
  if n < 10 then "000" ++ toString n
  else if n < 100 then "00" ++ toString n
  else if n < 1000 then "0" ++ toString n
  else toString n

/-- Rendering `strftime('%Y-%m-%d')`: canonical ISO date rendering. -/
def toISO (d : Date) : String :=
  pad4 d.year ++ "-" ++ pad2 d.month ++ "-" ++ pad2 d.day

/-! ## Amount parsing: embedding of `ETLService._clean_amounts.parse_amount` -/

/-- Python `float(s)` restricted to strings over digits, `.` and `-` — the
only characters that can reach the final parse inside `parse_amount`: an
optional leading minus, then digits with at most one decimal point and at
least one digit. The value is returned as an exact rational. -/
def parseFloat? (l : List Char) : Option Rat :=
  let (neg, body) :=
    match l with
    | '-' :: rest => (true, rest)
    | _ => (false, l)
  let intPart := body.takeWhile (fun c => c ≠ '.')
  match body.dropWhile (fun c => c ≠ '.') with
  | [] =>
    match digitsToNat? intPart with
    | some n => some (if neg then -(mkRat n 1) else mkRat n 1)
    | none => none
  | _ :: frac =>
    if intPart.all Char.isDigit && frac.all Char.isDigit &&
        (!intPart.isEmpty || !frac.isEmpty) then
      let ip : Nat := intPart.foldl (fun acc c => 10 * acc + (c.toNat - 48)) 0
      let fp : Nat := frac.foldl (fun acc c => 10 * acc + (c.toNat - 48)) 0
      let q : Rat := mkRat (ip * 10 ^ frac.length + fp) (10 ^ frac.length)
      some (if neg then -q else q)
    else none

/-- The substitution `re.sub(r'(?i)[A-Z]{2,3}\b', '', s)` from `parse_amount`
(strip currency codes such as NGN, USD): scanning left to right, a run of
three letters whose end lies on a word boundary is removed (greedy first
attempt), else a run of two letters ending on a word boundary, else the
scan advances one character; scanning resumes right after removed text. -/
def stripCCAux : Nat → List Char → List Char
  | 0, l => l
  | _ + 1, [] => []
  | _ + 1, [a] => [a]
  | fuel + 1, [a, b] =>
    if isAsciiLetter a && isAsciiLetter b then []
    else a :: stripCCAux fuel [b]
  | fuel + 1, [a, b, c] =>
    if isAsciiLetter a && isAsciiLetter b && isAsciiLetter c then []
    else if isAsciiLetter a && isAsciiLetter b && !isWordChar c then
      stripCCAux fuel [c]
    else a :: stripCCAux fuel [b, c]
  | fuel + 1, a :: b :: c :: d :: rest =>
    if isAsciiLetter a && isAsciiLetter b && isAsciiLetter c && !isWordChar d then
      stripCCAux fuel (d :: rest)
    else if isAsciiLetter a && isAsciiLetter b && !isWordChar c then
      stripCCAux fuel (c :: d :: rest)
    else a :: stripCCAux fuel (b :: c :: d :: rest)

/-- Entry point of the scan: every step consumes at least one character, so
the list length is enough fuel and the fuel never runs out. -/
def stripCurrencyCodes (l : List Char) : List Char :=
  stripCCAux l.length l

/-- The currency symbols removed by `re.sub(r'[£$€¥₦₪₹]', '', s)`. -/
def currencySymbols : List Char := ['£', '$', '€', '¥', '₦', '₪', '₹']

/-- Case-insensitive match of a character against a lower-case letter,
as under the regex flag `(?i)`. -/
def charCI (c lower : Char) : Bool := c.toLower = lower

/-- Python `re.search(r'(?i)XY\b', s)` for a two-letter token `XY`: does the text
contain the two letters (case-insensitively) followed by a word boundary? -/
def hasToken (x y : Char) : List Char → Bool
  | a :: b :: rest =>
    if charCI a x && charCI b y &&
        (match rest with | [] => true | r :: _ => !isWordChar r) then true
    else hasToken x y (b :: rest)
  | _ => false

/-- Python `re.sub(r'(?i)XY\b', '', s)` for a two-letter token `XY`: remove every
occurrence of the token that ends on a word boundary, left to right. -/
def removeToken (x y : Char) : List Char → List Char
  | a :: b :: rest =>
    if charCI a x && charCI b y &&
        (match rest with | [] => true | r :: _ => !isWordChar r) then
      removeToken x y rest
    else a :: removeToken x y (b :: rest)
  | l => l

/-- The Python expression `sign * val` where `sign` is `1` or `-1`:
multiplying a float by minus one is exact negation, and by one the identity,
so the embedding uses conditional negation. -/
def applySign (sign : Int) (v : Rat) : Rat :=
  if sign < 0 then -v else v

/-- Embedding of `parse_amount` from `ETLService._clean_amounts`
(etl_service.py lines 152-203), stage by stage in source order: strip,
normalize the unicode minus, strip 2-3 letter codes, strip currency symbols,
remove spaces, detect and remove a CR (sign +1) or DR (sign -1) token,
parenthesized value means negative, leading minus means negative and a
leading plus is dropped, remove commas, drop any remaining character other
than digits, dot and minus, reject an empty or lone-dot residue, and parse
the rest as a signed decimal. `none` models the Python `None` (row dropped),
and the `none` input models a NaN cell. -/
def parse_amount (value : Option String) : Option Rat :=
  match value with
  | none => none
  | some v =>
    let s0 := stripChars v.toList
    let s1 := s0.map (fun c => if c = '−' then '-' else c)
    let s2 := stripCurrencyCodes s1
    let s3 := s2.filter (fun c => !currencySymbols.contains c)
    let s4 := s3.filter (fun c => c ≠ ' ')
    let (sign1, s5) :=
      if hasToken 'c' 'r' s4 then ((1 : Int), removeToken 'c' 'r' s4)
      else if hasToken 'd' 'r' s4 then (-1, removeToken 'd' 'r' s4)
      else (1, s4)
    let (sign2, s6) :=
      match s5 with
      | '(' :: rest =>
        if !rest.isEmpty && rest.getLast? = some ')' then
          ((-1 : Int), rest.dropLast)
        else (sign1, s5)
      | _ => (sign1, s5)
    let (sign3, s7) :=
      match s6 with
      | '-' :: rest => ((-1 : Int), rest)
      | '+' :: rest => (sign2, rest)
      | _ => (sign2, s6)
    let s8 := s7.filter (fun c => c ≠ ',')
    let s9 := s8.filter (fun c => c.isDigit || c = '.' || c = '-')
    if s9 = [] || s9 = ['.'] then none
    else (parseFloat? s9).map (applySign sign3)

/-- Transaction direction. -/
inductive TxnType
  | CREDIT
  | DEBIT
  | NEUTRAL
deriving DecidableEq, Repr

/-- Function `ttype` from `ETLService._classify_transactions`: positive is CREDIT,
negative is DEBIT, zero is NEUTRAL. -/
def ttype (x : Rat) : TxnType :=
  if x > 0 then .CREDIT else if x < 0 then .DEBIT else .NEUTRAL

/-- Float absolute value, `Series.abs()`. -/
def ratAbs (x : Rat) : Rat := if x < 0 then -x else x

/-! ## The transform pipeline: embedding of `ETLService.transform` -/

/-- A row of the frame after `df.rename(columns=mapping)` and the projection
to the three canonical columns: each cell is raw text or NaN (`none`).
Cells are taken in stringified form, as the cleaning stages do with
`str(value)` and `astype(str)`; the embedding covers object-dtype (text)
frames, the case every pipeline claim addresses. -/
structure RawRow where
  date? : Option String
  amount? : Option String
  descr? : Option String
deriving DecidableEq, Repr

/-- Pandas `df.dropna(how='all', subset=required)` keeps a row exactly when at
least one of the three cells is non-null. -/
def notAllNull (r : RawRow) : Bool :=
  r.date?.isSome || r.amount?.isSome || r.descr?.isSome

/-- Worker for `pdDedup`, carrying the set of row values already seen. -/
def pdDedupAux [DecidableEq α] (seen : List α) : List α → List α
  | [] => []
  | x :: xs =>
    if x ∈ seen then pdDedupAux seen xs
    else x :: pdDedupAux (x :: seen) xs

/-- Pandas `df.drop_duplicates()`: keep the first occurrence of every row value. -/
def pdDedup [DecidableEq α] (l : List α) : List α := pdDedupAux [] l

/-- The column-wide convention decision of `_clean_dates` (etl_service.py
lines 114-124) for a non-numeric date column: parse the whole column with
`dayfirst=False`; when the failure count exceeds `max(1, total // 3)`,
re-parse the whole column with `dayfirst=True` and keep the second parse
exactly when it has strictly more successes. Returns the chosen `dayfirst`
flag; `none` cells model NaN, which `pd.to_datetime` turns into NaT
(a failure). -/
def chooseDayfirst (col : List (Option String)) : Bool :=
  let parsed := col.map (fun s? => s?.bind (parseConv false))
  let natCount := parsed.countP (fun d => d.isNone)
  let total := parsed.length
  if natCount > max 1 (total / 3) then
    let parsed2 := col.map (fun s? => s?.bind (parseConv true))
    decide (parsed2.countP (fun d => d.isSome) > parsed.countP (fun d => d.isSome))
  else false

/-- A row after `_clean_dates`: the date cell is parsed and non-null. The
source renders surviving dates to ISO strings inside `_clean_dates`; no
later stage reads the date column again, so the embedding keeps the parsed
date and renders it at the classification stage. -/
structure DateRow where
  date : Date
  amount? : Option String
  descr? : Option String
deriving DecidableEq, Repr

/-- Stage `_clean_dates` row filtering under the chosen convention: parse the
date cell and drop rows whose date fails to parse (`dropna(subset=['date'])`). -/
def clean_dates (b : Bool) (l : List RawRow) : List DateRow :=
  l.filterMap (fun r =>
    (r.date?.bind (parseConv b)).map (fun d => ⟨d, r.amount?, r.descr?⟩))

/-- A row after `_clean_amounts`: the amount is parsed and non-null. -/
structure AmountRow where
  date : Date
  amount : Rat
  descr? : Option String
deriving DecidableEq, Repr

/-- Stage `_clean_amounts`: apply `parse_amount` to the amount cell and drop rows
where it returns `None` (`dropna(subset=['amount'])`). -/
def clean_amounts (l : List DateRow) : List AmountRow :=
  l.filterMap (fun r =>
    (parse_amount r.amount?).map (fun a => ⟨r.date, a, r.descr?⟩))

/-- A row after `_clean_descriptions`: the description is a non-empty string. -/
structure DescrRow where
  date : Date
  amount : Rat
  descr : String
deriving DecidableEq, Repr

/-- The `_clean_descriptions` cell transform: null becomes the placeholder,
then stringify, strip, collapse internal whitespace runs, truncate to 500. -/
def cleanDescrCell (s? : Option String) : String :=
  match s? with
  | none => "Unknown Transaction"
  | some s => String.mk ((collapseWs (stripChars s.toList)).take 500)

/-- Stage `_clean_descriptions`: clean every description cell, then drop rows whose
cleaned description is the empty string. -/
def clean_descriptions (l : List AmountRow) : List DescrRow :=
  (l.map (fun r => ⟨r.date, r.amount, cleanDescrCell r.descr?⟩)).filter
    (fun r => r.descr ≠ "")

/-- The pipeline's output record: ISO date string, absolute amount,
direction tag, cleaned description. -/
structure Txn where
  date : String
  amount : Rat
  transaction_type : TxnType
  description : String
deriving DecidableEq, Repr

/-- Stage `_classify_transactions`: tag the direction from the signed amount, then
replace the amount by its absolute value. -/
def classify_transactions (l : List DescrRow) : List Txn :=
  l.map (fun r => ⟨toISO r.date, ratAbs r.amount, ttype r.amount, r.descr⟩)

/-- Embedding of `ETLService.transform` (etl_service.py lines 56-88) on the
renamed three-column frame: drop all-null rows, drop exact duplicate rows,
clean dates under the column-wide convention choice, clean amounts, clean
descriptions, classify, and fail when no row survives. The final
`dropna(subset=['date','amount','description'])` of the source drops
nothing because after the cleaning stages those columns hold no nulls,
which the typed frames make structural. -/
def transform (rows : List RawRow) : Except String (List Txn) :=
  let base := pdDedup (rows.filter notAllNull)
  let b := chooseDayfirst (base.map (fun r => r.date?))
  let out :=
    classify_transactions (clean_descriptions (clean_amounts (clean_dates b base)))
  if out.isEmpty then Except.error "No valid transactions found after cleaning."
  else Except.ok out

/-- Fused per-row normalization under a fixed convention: the transaction a
row yields when it survives the date, amount and description stages, and
`none` when any stage rejects it. -/
def normalizeRow (b : Bool) (r : RawRow) : Option Txn :=
  match r.date?.bind (parseConv b), parse_amount r.amount? with
  | some d, some a =>
    let de := cleanDescrCell r.descr?
    if de = "" then none else some ⟨toISO d, ratAbs a, ttype a, de⟩
  | _, _ => none

/-- The rows of the deduplicated frame that survive all cleaning stages,
already normalized. -/
def survivors (rows : List RawRow) : List Txn :=
  let base := pdDedup (rows.filter notAllNull)
  base.filterMap (normalizeRow (chooseDayfirst (base.map (fun r => r.date?))))

/-! ## Column role detection: embedding of `ColumnDetector` -/

/-- A source column: its header name, its cells (string or NaN), and
whether its dtype is object/string (text), which the description fallback
consults. -/
structure Column where
  name : String
  cells : List (Option String)
  textual : Bool
deriving DecidableEq, Repr

/-- The three roles a column can play. -/
inductive Role
  | date
  | amount
  | descr
deriving DecidableEq, Repr

/-- Python dict assignment `m[k] = v`: overwrite in place when the key is
present, else append. -/
def dupsert [BEq κ] (k : κ) (v : α) : List (κ × α) → List (κ × α)
  | [] => [(k, v)]
  | (k', v') :: rest =>
    if k' == k then (k, v) :: rest else (k', v') :: dupsert k v rest

/-- List `ColumnDetector.DATE_PATTERNS`. -/
def DATE_PATTERNS : List String :=
  ["date", "trans_date", "transaction_date", "posted_date",
   "value_date", "timestamp", "datetime"]

/-- List `ColumnDetector.AMOUNT_PATTERNS`. -/
def AMOUNT_PATTERNS : List String :=
  ["amount", "value", "debit", "credit", "transaction_amount",
   "sum", "total", "price", "amt"]

/-- List `ColumnDetector.DESCRIPTION_PATTERNS`. -/
def DESCRIPTION_PATTERNS : List String :=
  ["description", "memo", "details", "narrative", "particulars",
   "transaction_details", "remarks", "merchant", "narr"]

/-- Normalization `col.lower().strip()`, the header normalization of `detect_columns`. -/
def normName (s : String) : String := pyStrip (lowerStr s)

/-- The dict comprehension
`normalized_to_original = {col.lower().strip(): col for col in df.columns}`:
later columns with the same normalized name overwrite earlier values while
keeping the first-insertion position, as a Python dict does. The stored
value is the column itself (the source stores the original name and looks
the column up by it). -/
def normalizedToOriginal (cols : List Column) : List (String × Column) :=
  cols.foldl (fun m c => dupsert (normName c.name) c m) []

/-- Does the normalized header contain any pattern as a substring
(`any(p in norm for p in patterns)`)? -/
def nameMatches (patterns : List String) (norm : String) : Bool :=
  patterns.any (fun pat => strContains norm pat)

/-- Helper `detect_columns.find_column`: first pass over the header dict keeps the
first name-matching column that also passes the validator (a failing
validator skips the column and the scan continues); second pass, only when
a validator exists, returns the first column of any name passing it. -/
def find_column (patterns : List String) (validator : Option (Column → Bool))
    (cols : List Column) : Option String :=
  let items := normalizedToOriginal cols
  match items.find? (fun p =>
      nameMatches patterns p.1 &&
      (match validator with | none => true | some v => v p.2)) with
  | some p => some p.2.name
  | none =>
    match validator with
    | some v => (cols.find? (fun c => v c)).map (fun c => c.name)
    | none => none

/-- Validator `is_date_series`: sample up to 10 non-null values; accept when the
count parsing under `dayfirst=False` reaches `max(1, len(sample) // 2)`,
else when the count under `dayfirst=True` does. -/
def is_date_series (c : Column) : Bool :=
  let sample := (c.cells.filterMap id).take 10
  if sample.isEmpty then false
  else
    let thr := max 1 (sample.length / 2)
    if sample.countP (fun s => (parseConv false s).isSome) ≥ thr then true
    else sample.countP (fun s => (parseConv true s).isSome) ≥ thr

/-- The character class kept by `is_numeric_series`'s noise-stripping regex
`[^\d\.\-\(\)CRcrDRdr,]` (digits, dot, minus, parentheses, the CR/DR
letters, comma). -/
def numericNoiseKeep (ch : Char) : Bool :=
  ch.isDigit || ch = '.' || ch = '-' || ch = '(' || ch = ')' ||
  ch = 'C' || ch = 'R' || ch = 'c' || ch = 'r' || ch = 'D' || ch = 'd' || ch = ','

/-- Validator `is_numeric_series`: sample up to 10 non-null values, strip noise, drop
commas, parse numerically (`pd.to_numeric`, a strict float literal parse),
and accept when the success count reaches `max(1, len // 2)`. -/
def is_numeric_series (c : Column) : Bool :=
  let sample := (c.cells.filterMap id).take 10
  if sample.isEmpty then false
  else
    let parsedOk := sample.countP (fun s =>
      (parseFloat? ((s.toList.filter numericNoiseKeep).filter (fun ch => ch ≠ ','))).isSome)
    parsedOk ≥ max 1 (sample.length / 2)

/-- The conditional assignment `if found_col: mapping[found_col] = role`
common to the three roles of `detect_columns`. -/
def maybeInsert (o : Option String) (role : Role) (m : List (String × Role)) :
    List (String × Role) :=
  match o with
  | some n => dupsert n role m
  | none => m

/-- Embedding of `ColumnDetector.detect_columns` (column_detector.py lines
29-116): find a date column (name match plus date validator), an amount
column (name match plus numeric validator), a description column (name
match only, falling back to the first text column not already claimed),
and return the mapping only when all three role values are present
(`set(mapping.values()) == {'date','amount','description'}`; every value is
one of the three roles, so the set equation is exactly three-membership). -/
def detect_columns (cols : List Column) : Option (List (String × Role)) :=
  if cols.isEmpty then none
  else
    let m1 := maybeInsert (find_column DATE_PATTERNS (some is_date_series) cols)
      Role.date []
    let m2 := maybeInsert (find_column AMOUNT_PATTERNS (some is_numeric_series) cols)
      Role.amount m1
    let descCol :=
      match find_column DESCRIPTION_PATTERNS none cols with
      | some n => some n
      | none =>
        (cols.find? (fun c =>
          !(m2.map Prod.fst).contains c.name && c.textual)).map (fun c => c.name)
    let m3 := maybeInsert descCol Role.descr m2
    if (m3.map Prod.snd).contains Role.date &&
        (m3.map Prod.snd).contains Role.amount &&
        (m3.map Prod.snd).contains Role.descr then some m3
    else none

/-! ## Category rules: embedding of `CategoryRule` and the upload matcher -/

/-- A category rule row of one user: keyword, category id, priority, and
creation time (`created_at`, larger is more recent). -/
structure CRule where
  description_keyword : String
  category : Nat
  priority : Int
  created_at : Nat
deriving DecidableEq, Repr

/-- Method `CategoryRule.matches` (models.py lines 47-49): case-insensitive
substring containment of the keyword in the description. -/
def ruleMatches (r : CRule) (descr : String) : Bool :=
  strContains (lowerStr descr) (lowerStr r.description_keyword)

/-- The preview matcher of the upload endpoint (views.py lines 365-372):
walk the user's rules in queryset order and take the category of the first
rule that matches. The queryset order is the model's
`Meta.ordering = ['-priority', '-created_at']`; theorems state it as a
sortedness hypothesis on the rule list. -/
def matchCategory (rules : List CRule) (descr : String) : Option Nat :=
  (rules.find? (fun r => ruleMatches r descr)).map (fun r => r.category)

/-- Queryset order `['-priority', '-created_at']`: `a` may precede `b` when
`a` has larger priority, or equal priority and a creation time no older. -/
def rankAbove (a b : CRule) : Bool :=
  b.priority < a.priority || (a.priority == b.priority && b.created_at ≤ a.created_at)

/-- Strictly lower rank: smaller priority, or equal priority and strictly
older creation. -/
def rankBelow (a b : CRule) : Bool :=
  a.priority < b.priority || (a.priority == b.priority && a.created_at < b.created_at)

/-! ## The upload endpoint and `update_category`: embedding of views.py -/

/-- The upload request as the endpoint's documented interface describes it:
the decoded table plus the three documented manual column-name override
fields (`date_column`, `amount_column`, `description_column`). -/
structure UploadRequest where
  table : List Column
  date_column : Option String
  amount_column : Option String
  description_column : Option String

/-- The column mapping the upload handler produces (views.py lines
347-383): the handler passes the file to `ETLService.extract`, which runs
`ColumnDetector.detect_columns` on the loaded table; the three override
fields of the request are never read by the handler body. -/
def uploadColumnMapping (req : UploadRequest) : Option (List (String × Role)) :=
  detect_columns req.table

/-- An expense row as `update_category` sees it: id, description and
current category. -/
structure Exp where
  ident : Nat
  description : String
  category : Option Nat
deriving DecidableEq, Repr

/-- The per-user store state `update_category` works on: the user's
expenses and rules (rules keyed by keyword, value is the category id). -/
structure UCState where
  expenses : List Exp
  rules : List (String × Nat)
deriving DecidableEq, Repr

/-- Keyword derivation of `update_category` (views.py lines 636-638):
`words = expense.description.split()[:2]`, then
`keyword = ' '.join(words) if words else expense.description[:20]`. -/
def deriveKeyword (descr : String) : String :=
  let words := (pySplit descr).take 2
  if !words.isEmpty then " ".intercalate words
  else String.mk (descr.toList.take 20)

/-- Embedding of `update_category` (views.py lines 616-659): set the chosen
category on the target expense (`expense.save()` runs first, so the target
is no longer uncategorized); when `create_rule` holds, derive the keyword,
upsert the user's rule for it (`update_or_create` keyed by the keyword),
and assign the category to every still-uncategorized expense whose
description contains the keyword case-insensitively
(`description__icontains`, `category__isnull=True`). A missing expense id
leaves the state unchanged (the view answers 404). -/
def update_category (st : UCState) (eId catId : Nat) (create_rule : Bool) : UCState :=
  match st.expenses.find? (fun e => e.ident == eId) with
  | none => st
  | some e =>
    let exps1 := st.expenses.map (fun x =>
      if x.ident == eId then { x with category := some catId } else x)
    if create_rule then
      let kw := deriveKeyword e.description
      { expenses := exps1.map (fun x =>
          if x.category == none &&
              strContains (lowerStr x.description) (lowerStr kw) then
            { x with category := some catId }
          else x),
        rules := dupsert kw catId st.rules }
    else { expenses := exps1, rules := st.rules }

/-! ## Helper lemmas about the pipeline -/

theorem mkDate?_valid {y m dd : Nat} {d : Date} (h : mkDate? y m dd = some d) :
    validDate d = true := by
  unfold mkDate? at h
  split at h
  · cases h; assumption
  · cases h

theorem parseConv_valid {b : Bool} {s : String} {d : Date}
    (h : parseConv b s = some d) : validDate d = true := by
  unfold parseConv at h
  rcases Option.bind_eq_some.mp h with ⟨f, _, hmk⟩
  exact mkDate?_valid hmk

theorem ratAbs_eq_abs (x : Rat) : ratAbs x = |x| := by
  unfold ratAbs
  split
  · exact (abs_of_neg (by assumption)).symm
  · exact (abs_of_nonneg (le_of_not_lt (by assumption))).symm

theorem ratAbs_nonneg (x : Rat) : 0 ≤ ratAbs x := by
  rw [ratAbs_eq_abs]; exact abs_nonneg x

theorem ttype_credit_iff (x : Rat) : ttype x = TxnType.CREDIT ↔ 0 < x := by
  unfold ttype
  split_ifs with h1 h2
  · exact iff_of_true rfl h1
  · exact iff_of_false (by simp) h1
  · exact iff_of_false (by simp) h1

theorem ttype_debit_iff (x : Rat) : ttype x = TxnType.DEBIT ↔ x < 0 := by
  unfold ttype
  split_ifs with h1 h2
  · exact iff_of_false (by simp) (fun h => absurd h1 (asymm h))
  · exact iff_of_true rfl h2
  · exact iff_of_false (by simp) h2

theorem ttype_neutral_iff (x : Rat) : ttype x = TxnType.NEUTRAL ↔ x = 0 := by
  unfold ttype
  split_ifs with h1 h2
  · exact iff_of_false (by simp) (fun h => absurd (h ▸ h1) (lt_irrefl (0 : Rat)))
  · exact iff_of_false (by simp) (fun h => absurd (h ▸ h2) (lt_irrefl (0 : Rat)))
  · exact iff_of_true rfl (le_antisymm (le_of_not_lt h1) (le_of_not_lt h2))

theorem clean_dates_cons_none {b : Bool} {r : RawRow} {t : List RawRow}
    (hd : r.date?.bind (parseConv b) = none) :
    clean_dates b (r :: t) = clean_dates b t := by
  simp only [clean_dates, List.filterMap_cons, hd, Option.map_none']

theorem clean_dates_cons_some {b : Bool} {r : RawRow} {t : List RawRow} {d : Date}
    (hd : r.date?.bind (parseConv b) = some d) :
    clean_dates b (r :: t) = ⟨d, r.amount?, r.descr?⟩ :: clean_dates b t := by
  simp only [clean_dates, List.filterMap_cons, hd, Option.map_some']

theorem stages_eq_filterMap (b : Bool) (l : List RawRow) :
    classify_transactions (clean_descriptions (clean_amounts (clean_dates b l)))
      = l.filterMap (normalizeRow b) := by
  induction l with
  | nil => rfl
  | cons r t ih =>
    rw [List.filterMap_cons]
    cases hd : r.date?.bind (parseConv b) with
    | none =>
      rw [clean_dates_cons_none hd, ih]
      simp only [normalizeRow, hd]
    | some d =>
      rw [clean_dates_cons_some hd]
      cases ha : parse_amount r.amount? with
      | none =>
        have hca : clean_amounts (DateRow.mk d r.amount? r.descr? :: clean_dates b t)
            = clean_amounts (clean_dates b t) := by
          simp only [clean_amounts, List.filterMap_cons, ha, Option.map_none']
        rw [hca, ih]
        simp only [normalizeRow, hd, ha]
      | some a =>
        have hca : clean_amounts (DateRow.mk d r.amount? r.descr? :: clean_dates b t)
            = ⟨d, a, r.descr?⟩ :: clean_amounts (clean_dates b t) := by
          simp only [clean_amounts, List.filterMap_cons, ha, Option.map_some']
        rw [hca]
        by_cases hde : cleanDescrCell r.descr? = ""
        · have hcde : clean_descriptions
              (AmountRow.mk d a r.descr? :: clean_amounts (clean_dates b t))
              = clean_descriptions (clean_amounts (clean_dates b t)) := by
            simp only [clean_descriptions, List.map_cons, List.filter_cons]
            simp [hde]
          rw [hcde, ih]
          simp only [normalizeRow, hd, ha, hde, if_true]
        · have hcde : clean_descriptions
              (AmountRow.mk d a r.descr? :: clean_amounts (clean_dates b t))
              = ⟨d, a, cleanDescrCell r.descr?⟩
                :: clean_descriptions (clean_amounts (clean_dates b t)) := by
            simp only [clean_descriptions, List.map_cons, List.filter_cons]
            simp [hde]
          rw [hcde]
          simp only [classify_transactions, List.map_cons]
          rw [show List.map (fun r : DescrRow =>
            Txn.mk (toISO r.date) (ratAbs r.amount) (ttype r.amount) r.descr)
              (clean_descriptions (clean_amounts (clean_dates b t)))
            = classify_transactions (clean_descriptions (clean_amounts (clean_dates b t)))
            from rfl, ih]
          simp only [normalizeRow, hd, ha, hde, if_false]

theorem transform_eq_survivors (rows : List RawRow) :
    transform rows =
      if (survivors rows).isEmpty then
        Except.error "No valid transactions found after cleaning."
      else Except.ok (survivors rows) := by
  simp only [transform, survivors, stages_eq_filterMap]

theorem pdDedupAux_middle [DecidableEq α] (seen : List α) (xs ys : List α) (v : α)
    (hv : v ∈ xs ∨ v ∈ seen) :
    pdDedupAux seen (xs ++ v :: ys) = pdDedupAux seen (xs ++ ys) := by
  induction xs generalizing seen with
  | nil =>
    rcases hv with h | h
    · cases h
    · simp [pdDedupAux, h]
  | cons x xs ih =>
    simp only [List.cons_append, pdDedupAux]
    by_cases hx : x ∈ seen
    · simp only [if_pos hx]
      apply ih
      rcases hv with h | h
      · rcases List.mem_cons.mp h with rfl | h2
        · exact Or.inr hx
        · exact Or.inl h2
      · exact Or.inr h
    · simp only [if_neg hx]
      congr 1
      apply ih
      rcases hv with h | h
      · rcases List.mem_cons.mp h with rfl | h2
        · exact Or.inr (List.mem_cons_self _ _)
        · exact Or.inl h2
      · exact Or.inr (List.mem_cons_of_mem _ h)

/-! ## Claims C6, C7, C10: the transform pipeline -/

/-- C6: rows rejected at the date, amount or description stage are dropped
without any error and the surviving rows still produce output; when no row
survives, `transform` fails with the no-surviving-rows error instead of
returning an empty list. `survivors` is the per-row fused normalization of
the deduplicated frame, so the equation says exactly that `transform`
returns the surviving rows when there are any and the error otherwise. -/
theorem c6_row_rejections_not_fatal (rows : List RawRow) :
    transform rows =
      if (survivors rows).isEmpty then
        Except.error "No valid transactions found after cleaning."
      else Except.ok (survivors rows) :=
  transform_eq_survivors rows

/-- C7: every transaction returned by `transform` has a non-negative amount
that is the absolute value of the parsed signed amount, a direction that is
CREDIT, DEBIT or NEUTRAL exactly when the signed amount is positive,
negative or zero, a non-empty description of at most 500 characters that is
either the trimmed-collapsed-truncated source text or the placeholder for a
null cell, and a date rendered in ISO form from a valid calendar date. -/
theorem c7_normalized_transaction_invariants
    (rows : List RawRow) (ts : List Txn) (h : transform rows = Except.ok ts) :
    ∀ t ∈ ts,
      0 ≤ t.amount ∧
      (∃ x : Rat, t.amount = |x| ∧
        (t.transaction_type = TxnType.CREDIT ↔ 0 < x) ∧
        (t.transaction_type = TxnType.DEBIT ↔ x < 0) ∧
        (t.transaction_type = TxnType.NEUTRAL ↔ x = 0)) ∧
      t.description ≠ "" ∧
      t.description.length ≤ 500 ∧
      (t.description = "Unknown Transaction" ∨
        ∃ s : String,
          t.description = String.mk ((collapseWs (stripChars s.toList)).take 500)) ∧
      ∃ d : Date, validDate d = true ∧ t.date = toISO d := by
  intro t ht
  rw [transform_eq_survivors rows] at h
  split at h
  · cases h
  · injection h with h'
    subst h'
    unfold survivors at ht
    rcases List.mem_filterMap.mp ht with ⟨r, _, hnorm⟩
    revert hnorm
    cases hd : r.date?.bind
        (parseConv (chooseDayfirst ((pdDedup (rows.filter notAllNull)).map
          (fun r => r.date?)))) with
    | none => intro hnorm; simp [normalizeRow, hd] at hnorm
    | some d =>
      cases ha : parse_amount r.amount? with
      | none => intro hnorm; simp [normalizeRow, hd, ha] at hnorm
      | some a =>
        intro hnorm
        simp only [normalizeRow, hd, ha] at hnorm
        by_cases hde : cleanDescrCell r.descr? = ""
        · simp [hde] at hnorm
        · rw [if_neg hde] at hnorm
          injection hnorm with ht'
          subst ht'
          refine ⟨ratAbs_nonneg a,
            ⟨a, ratAbs_eq_abs a, ttype_credit_iff a, ttype_debit_iff a,
              ttype_neutral_iff a⟩, hde, ?_, ?_, ?_⟩
          · cases hrd : r.descr? with
            | none => simp [cleanDescrCell, hrd]; decide
            | some s =>
              simp only [cleanDescrCell, hrd]
              show (String.mk ((collapseWs (stripChars s.toList)).take 500)).length ≤ 500
              have : (String.mk ((collapseWs (stripChars s.toList)).take 500)).length
                  = ((collapseWs (stripChars s.toList)).take 500).length := rfl
              rw [this, List.length_take]
              exact Nat.min_le_left _ _
          · cases hrd : r.descr? with
            | none => exact Or.inl (by simp [cleanDescrCell, hrd])
            | some s => exact Or.inr ⟨s, by simp [cleanDescrCell, hrd]⟩
          · rcases Option.bind_eq_some.mp hd with ⟨s', _, hp⟩
            exact ⟨d, parseConv_valid hp, rfl⟩

/-- Witness for C7 at a concrete upload: a single clean row. -/
theorem c7_normalized_transaction_invariants_witness :
    0 ≤ (Txn.mk "2024-01-15" 50 TxnType.CREDIT "Uber ride").amount ∧
    (∃ x : Rat, (Txn.mk "2024-01-15" 50 TxnType.CREDIT "Uber ride").amount = |x| ∧
      ((Txn.mk "2024-01-15" 50 TxnType.CREDIT "Uber ride").transaction_type
          = TxnType.CREDIT ↔ 0 < x) ∧
      ((Txn.mk "2024-01-15" 50 TxnType.CREDIT "Uber ride").transaction_type
          = TxnType.DEBIT ↔ x < 0) ∧
      ((Txn.mk "2024-01-15" 50 TxnType.CREDIT "Uber ride").transaction_type
          = TxnType.NEUTRAL ↔ x = 0)) ∧
    (Txn.mk "2024-01-15" 50 TxnType.CREDIT "Uber ride").description ≠ "" ∧
    (Txn.mk "2024-01-15" 50 TxnType.CREDIT "Uber ride").description.length ≤ 500 ∧
    ((Txn.mk "2024-01-15" 50 TxnType.CREDIT "Uber ride").description
        = "Unknown Transaction" ∨
      ∃ s : String, (Txn.mk "2024-01-15" 50 TxnType.CREDIT "Uber ride").description
        = String.mk ((collapseWs (stripChars s.toList)).take 500)) ∧
    ∃ d : Date, validDate d = true ∧
      (Txn.mk "2024-01-15" 50 TxnType.CREDIT "Uber ride").date = toISO d :=
  c7_normalized_transaction_invariants
    [⟨some "2024-01-15", some "50.00", some " Uber  ride "⟩]
    [Txn.mk "2024-01-15" 50 TxnType.CREDIT "Uber ride"]
    rfl
    (Txn.mk "2024-01-15" 50 TxnType.CREDIT "Uber ride")
    (by decide)

/-- C10: a row equal to an earlier row of the table is silently removed
before cleaning, so removing such a duplicate does not change the output of
the transform pipeline at all, and the duplicate set emits at most one
normalized transaction. -/
theorem c10_exact_duplicates_removed (l₁ l₂ : List RawRow) (v : RawRow)
    (hv : v ∈ l₁) :
    transform (l₁ ++ v :: l₂) = transform (l₁ ++ l₂) := by
  have hbase : pdDedup ((l₁ ++ v :: l₂).filter notAllNull)
      = pdDedup ((l₁ ++ l₂).filter notAllNull) := by
    rw [List.filter_append, List.filter_append, List.filter_cons]
    by_cases hnv : notAllNull v
    · simp only [hnv, if_true]
      exact pdDedupAux_middle [] _ _ v
        (Or.inl (List.mem_filter.mpr ⟨hv, hnv⟩))
    · simp [hnv]
  simp only [transform, hbase]

/-- Witness for C10: an exact duplicate one-row pair collapses to the
single row's output. -/
theorem c10_exact_duplicates_removed_witness :
    transform [⟨some "2024-01-15", some "50.00", some "a"⟩,
               ⟨some "2024-01-15", some "50.00", some "a"⟩]
      = transform [⟨some "2024-01-15", some "50.00", some "a"⟩] :=
  c10_exact_duplicates_removed
    [⟨some "2024-01-15", some "50.00", some "a"⟩] []
    ⟨some "2024-01-15", some "50.00", some "a"⟩ (by decide)

/-! ## Claim C1: the three debit notations -/

/-- C1 (code bug): `"-50.00"` and `"(50.00)"` normalize to `-50.00` and
classify as DEBIT with amount `50.00`, but `"50.00 DR"` does not: the
currency-code substitution `re.sub(r'(?i)[A-Z]{2,3}\b', '', s)` removes the
two-letter `DR` token before the DR detection runs, so the value parses to
`+50.00` and the row classifies as CREDIT — contradicting the code's own
comment ("Remove currency symbols and letters except CR/DR") and
docstring. -/
theorem c1_dr_token_eaten_by_currency_strip :
    parse_amount (some "-50.00") = some (-50) ∧
    parse_amount (some "(50.00)") = some (-50) ∧
    parse_amount (some "50.00 DR") = some 50 ∧
    transform [⟨some "2024-01-15", some "-50.00", some "a"⟩]
      = Except.ok [⟨"2024-01-15", 50, TxnType.DEBIT, "a"⟩] ∧
    transform [⟨some "2024-01-15", some "(50.00)", some "a"⟩]
      = Except.ok [⟨"2024-01-15", 50, TxnType.DEBIT, "a"⟩] ∧
    transform [⟨some "2024-01-15", some "50.00 DR", some "a"⟩]
      = Except.ok [⟨"2024-01-15", 50, TxnType.CREDIT, "a"⟩] :=
  ⟨by decide, by decide, by decide, rfl, rfl, rfl⟩

/-! ## Claim C2: the column-wide date convention choice -/

/-- Modelled from the spec (§4.3) for comparison: the convention choice as
the spec words it — re-parse the whole column day-first when more than
one-third of the values fail month-first, and keep day-first exactly when
it yields strictly fewer failures (ties keep month-first). -/
def specChooseDayfirst (col : List (Option String)) : Bool :=
  let parsed := col.map (fun s? => s?.bind (parseConv false))
  let f0 := parsed.countP (fun d => d.isNone)
  if 3 * f0 > parsed.length then
    let parsed2 := col.map (fun s? => s?.bind (parseConv true))
    decide (parsed2.countP (fun d => d.isNone) < f0)
  else false

/-- Counterexample to C2 as stated: in a two-value column where month-first
fails on one value (more than one-third) and day-first parses both, the
claim requires the day-first re-parse (strictly fewer failures), keeping
both rows; the code's threshold is `max(1, total // 3)` — `1 > 1` is false —
so it keeps month-first and drops the second row. -/
theorem c2_counterexample :
    chooseDayfirst [some "01/01/2024", some "31/01/2024"] = false ∧
    specChooseDayfirst [some "01/01/2024", some "31/01/2024"] = true ∧
    clean_dates false
        [⟨some "01/01/2024", some "10.00", some "a"⟩,
         ⟨some "31/01/2024", some "20.00", some "b"⟩]
      = [⟨⟨2024, 1, 1⟩, some "10.00", some "a"⟩] ∧
    clean_dates true
        [⟨some "01/01/2024", some "10.00", some "a"⟩,
         ⟨some "31/01/2024", some "20.00", some "b"⟩]
      = [⟨⟨2024, 1, 1⟩, some "10.00", some "a"⟩,
         ⟨⟨2024, 1, 31⟩, some "20.00", some "b"⟩] := by
  refine ⟨by decide, by decide, by decide, by decide⟩

theorem countP_isSome_add_isNone (l : List (Option α)) :
    l.countP (fun d => d.isSome) + l.countP (fun d => d.isNone) = l.length := by
  induction l with
  | nil => rfl
  | cons x t ih =>
    cases x <;> simp [List.countP_cons, ← ih] <;> omega

/-- C2 amended: the date normalizer makes one column-wide choice: it keeps
the day-first interpretation exactly when more than one-third of the values
AND at least two values fail month-first, and day-first has strictly fewer
failures; in every other case (ties included) it keeps month-first; the
whole column is always resolved under the single chosen convention. -/
theorem c2_amended_column_wide_choice (col : List (Option String)) :
    (chooseDayfirst col = true ↔
      2 ≤ (col.map (fun s? => s?.bind (parseConv false))).countP (fun d => d.isNone) ∧
      3 * (col.map (fun s? => s?.bind (parseConv false))).countP (fun d => d.isNone)
        > col.length ∧
      (col.map (fun s? => s?.bind (parseConv true))).countP (fun d => d.isNone)
        < (col.map (fun s? => s?.bind (parseConv false))).countP (fun d => d.isNone)) ∧
    (∀ rows : List RawRow,
      clean_dates (chooseDayfirst (rows.map (fun r => r.date?))) rows
          = clean_dates false rows ∨
      clean_dates (chooseDayfirst (rows.map (fun r => r.date?))) rows
          = clean_dates true rows) := by
  constructor
  · have h0 := countP_isSome_add_isNone (col.map (fun s? => s?.bind (parseConv false)))
    have h1 := countP_isSome_add_isNone (col.map (fun s? => s?.bind (parseConv true)))
    have hl0 : (col.map (fun s? => s?.bind (parseConv false))).length = col.length :=
      List.length_map _ _
    have hl1 : (col.map (fun s? => s?.bind (parseConv true))).length = col.length :=
      List.length_map _ _
    unfold chooseDayfirst
    dsimp only
    split
    · next htr =>
      simp only [decide_eq_true_eq]
      rw [hl0] at h0 htr
      rw [hl1] at h1
      constructor
      · intro hlt
        refine ⟨by omega, by omega, by omega⟩
      · intro ⟨_, _, hf⟩
        omega
    · next htr =>
      rw [hl0] at htr
      rw [hl0] at h0
      rw [hl1] at h1
      constructor
      · intro hfalse; cases hfalse
      · intro ⟨h2, h3, _⟩
        exact absurd (by omega : (col.map (fun s? =>
          s?.bind (parseConv false))).countP (fun d => d.isNone)
            > max 1 (col.length / 3)) htr
  · intro rows
    cases chooseDayfirst (rows.map (fun r => r.date?))
    · exact Or.inl rfl
    · exact Or.inr rfl

/-! ## Claim C3: rule matching order -/

/-- C3: with the user's rules listed in queryset order — descending
priority, ties broken by most recent creation, the model's
`Meta.ordering = ['-priority', '-created_at']` — the preview matcher walks
the list and returns the category of the first rule whose keyword is a
case-insensitive substring of the description; so when `r` is the unique
rank-maximal matching rule, `r`'s category is returned. -/
theorem c3_priority_then_recency_first_match
    (rules : List CRule) (descr : String) (r : CRule)
    (hsort : rules.Pairwise (fun a b => rankAbove a b = true))
    (hmem : r ∈ rules) (hmatch : ruleMatches r descr = true)
    (hbest : ∀ r' ∈ rules, ruleMatches r' descr = true →
      r' = r ∨ rankBelow r' r = true) :
    matchCategory rules descr = some r.category := by
  induction rules with
  | nil => cases hmem
  | cons h t ih =>
    rw [List.pairwise_cons] at hsort
    rcases List.mem_cons.mp hmem with rfl | hmemt
    · unfold matchCategory
      have hf : List.find? (fun x => ruleMatches x descr) (r :: t) = some r :=
        List.find?_cons_of_pos t hmatch
      rw [hf]
      rfl
    · by_cases hm : ruleMatches h descr = true
      · rcases hbest h (List.mem_cons_self _ _) hm with rfl | hb
        · unfold matchCategory
          have hf : List.find? (fun x => ruleMatches x descr) (h :: t) = some h :=
            List.find?_cons_of_pos t hm
          rw [hf]
          rfl
        · have ha := hsort.1 r hmemt
          exfalso
          simp only [rankAbove, rankBelow, Bool.or_eq_true, Bool.and_eq_true,
            decide_eq_true_eq, beq_iff_eq] at ha hb
          omega
      · unfold matchCategory
        have hf : List.find? (fun x => ruleMatches x descr) (h :: t)
            = List.find? (fun x => ruleMatches x descr) t :=
          List.find?_cons_of_neg t (by simpa using hm)
        rw [hf]
        exact ih hsort.2 hmemt
          (fun r' hr' => hbest r' (List.mem_cons_of_mem _ hr'))

/-- Witness for C3: the spec's example — rules
`[("uber", Transport := 1, priority 1), ("uber eats", Food := 2, priority 5)]`
in queryset order and description `"UBER EATS TRIP"` match `Food`. -/
theorem c3_priority_then_recency_first_match_witness :
    matchCategory [CRule.mk "uber eats" 2 5 10, CRule.mk "uber" 1 1 5]
      "UBER EATS TRIP" = some 2 :=
  c3_priority_then_recency_first_match
    [CRule.mk "uber eats" 2 5 10, CRule.mk "uber" 1 1 5]
    "UBER EATS TRIP" (CRule.mk "uber eats" 2 5 10)
    (by decide) (by decide) (by decide) (by decide)

/-! ## Claim C4: detection is all-or-nothing with distinct columns -/

theorem mem_keys_dupsert [BEq κ] [LawfulBEq κ] (a k : κ) (v : α)
    (m : List (κ × α)) :
    a ∈ (dupsert k v m).map Prod.fst ↔ a = k ∨ a ∈ m.map Prod.fst := by
  induction m with
  | nil => simp [dupsert]
  | cons p t ih =>
    rcases p with ⟨k', v'⟩
    simp only [dupsert]
    by_cases hb : (k' == k) = true
    · rw [if_pos hb]
      have hk : k' = k := eq_of_beq hb
      subst hk
      simp only [List.map_cons, List.mem_cons]
      tauto
    · rw [if_neg hb]
      simp only [List.map_cons, List.mem_cons, ih]
      tauto

theorem keys_nodup_dupsert [BEq κ] [LawfulBEq κ] (k : κ) (v : α)
    (m : List (κ × α)) (h : (m.map Prod.fst).Nodup) :
    ((dupsert k v m).map Prod.fst).Nodup := by
  induction m with
  | nil => simp [dupsert]
  | cons p t ih =>
    rcases p with ⟨k', v'⟩
    simp only [List.map_cons, List.nodup_cons] at h
    simp only [dupsert]
    by_cases hb : (k' == k) = true
    · rw [if_pos hb]
      have hk : k' = k := eq_of_beq hb
      subst hk
      simp only [List.map_cons, List.nodup_cons]
      exact h
    · rw [if_neg hb]
      simp only [List.map_cons, List.nodup_cons]
      refine ⟨?_, ih h.2⟩
      intro hmem
      rcases (mem_keys_dupsert k' k v t).mp hmem with h' | h'
      · exact hb (beq_iff_eq.mpr h')
      · exact h.1 h'

theorem length_dupsert_le [BEq κ] (k : κ) (v : α) (m : List (κ × α)) :
    (dupsert k v m).length ≤ m.length + 1 := by
  induction m with
  | nil => simp [dupsert]
  | cons p t ih =>
    rcases p with ⟨k', v'⟩
    simp only [dupsert]
    by_cases hb : (k' == k) = true
    · rw [if_pos hb]; simp
    · rw [if_neg hb]
      simpa using Nat.succ_le_succ ih

theorem length_maybeInsert_le (o : Option String) (role : Role)
    (m : List (String × Role)) :
    (maybeInsert o role m).length ≤ m.length + 1 := by
  cases o with
  | none => simp [maybeInsert]
  | some n => exact length_dupsert_le n role m

theorem keys_nodup_maybeInsert (o : Option String) (role : Role)
    (m : List (String × Role)) (h : (m.map Prod.fst).Nodup) :
    ((maybeInsert o role m).map Prod.fst).Nodup := by
  cases o with
  | none => exact h
  | some n => exact keys_nodup_dupsert n role m h

theorem role_triple_nodup : ∀ x y z : Role,
    Role.date ∈ [x, y, z] → Role.amount ∈ [x, y, z] → Role.descr ∈ [x, y, z] →
    ([x, y, z] : List Role).Nodup := by
  intro x y z
  cases x <;> cases y <;> cases z <;> decide

theorem three_roles_le_length (l : List Role)
    (h1 : Role.date ∈ l) (h2 : Role.amount ∈ l) (h3 : Role.descr ∈ l) :
    3 ≤ l.length := by
  have hsub : ({Role.date, Role.amount, Role.descr} : Finset Role) ⊆ l.toFinset := by
    intro x hx
    simp only [Finset.mem_insert, Finset.mem_singleton] at hx
    rcases hx with rfl | rfl | rfl <;> simpa [List.mem_toFinset]
  have hcard : ({Role.date, Role.amount, Role.descr} : Finset Role).card = 3 := by decide
  calc 3 = ({Role.date, Role.amount, Role.descr} : Finset Role).card := hcard.symm
    _ ≤ l.toFinset.card := Finset.card_le_card hsub
    _ ≤ l.length := l.toFinset_card_le

theorem mapping_shape (fd fa dc : Option String)
    (hd : Role.date ∈ (maybeInsert dc Role.descr (maybeInsert fa Role.amount
      (maybeInsert fd Role.date []))).map Prod.snd)
    (ha : Role.amount ∈ (maybeInsert dc Role.descr (maybeInsert fa Role.amount
      (maybeInsert fd Role.date []))).map Prod.snd)
    (hs : Role.descr ∈ (maybeInsert dc Role.descr (maybeInsert fa Role.amount
      (maybeInsert fd Role.date []))).map Prod.snd) :
    (maybeInsert dc Role.descr (maybeInsert fa Role.amount
      (maybeInsert fd Role.date []))).length = 3 ∧
    ((maybeInsert dc Role.descr (maybeInsert fa Role.amount
      (maybeInsert fd Role.date []))).map Prod.fst).Nodup ∧
    ((maybeInsert dc Role.descr (maybeInsert fa Role.amount
      (maybeInsert fd Role.date []))).map Prod.snd).Nodup := by
  have hlen3 : (maybeInsert dc Role.descr (maybeInsert fa Role.amount
      (maybeInsert fd Role.date []))).length ≤ 3 := by
    have l1 : (maybeInsert fd Role.date []).length ≤ 1 :=
      length_maybeInsert_le fd Role.date []
    have l2 : (maybeInsert fa Role.amount (maybeInsert fd Role.date [])).length ≤ 2 :=
      le_trans (length_maybeInsert_le fa Role.amount _) (by omega)
    exact le_trans (length_maybeInsert_le dc Role.descr _) (by omega)
  have hknd : ((maybeInsert dc Role.descr (maybeInsert fa Role.amount
      (maybeInsert fd Role.date []))).map Prod.fst).Nodup := by
    apply keys_nodup_maybeInsert
    apply keys_nodup_maybeInsert
    apply keys_nodup_maybeInsert
    simp
  generalize maybeInsert dc Role.descr (maybeInsert fa Role.amount
      (maybeInsert fd Role.date [])) = m3 at hd ha hs hlen3 hknd ⊢
  have hlen : m3.length = 3 := by
    have h3 : 3 ≤ (m3.map Prod.snd).length := three_roles_le_length _ hd ha hs
    rw [List.length_map] at h3
    omega
  refine ⟨hlen, hknd, ?_⟩
  have hvl : (m3.map Prod.snd).length = 3 := by
    rw [List.length_map]; exact hlen
  rcases List.length_eq_three.mp hvl with ⟨x, y, z, hxyz⟩
  rw [hxyz] at hd ha hs ⊢
  exact role_triple_nodup x y z hd ha hs

/-- C4: whenever `detect_columns` returns a mapping, the mapping has
exactly three entries, the keys (original column names) are pairwise
distinct, and the values are exactly the three roles, one each; in every
other case it returns `none`. -/
theorem c4_detection_all_or_nothing (cols : List Column)
    (m : List (String × Role)) (h : detect_columns cols = some m) :
    m.length = 3 ∧ (m.map Prod.fst).Nodup ∧ (m.map Prod.snd).Nodup ∧
    Role.date ∈ m.map Prod.snd ∧ Role.amount ∈ m.map Prod.snd ∧
    Role.descr ∈ m.map Prod.snd := by
  unfold detect_columns at h
  split at h
  · cases h
  · dsimp only at h
    split at h
    case isTrue hall =>
      injection h with hm
      subst hm
      simp only [Bool.and_eq_true] at hall
      obtain ⟨⟨hd, ha⟩, hdsc⟩ := hall
      have hmd := List.elem_iff.mp hd
      have hma := List.elem_iff.mp ha
      have hms := List.elem_iff.mp hdsc
      obtain ⟨h1, h2, h3⟩ := mapping_shape _ _ _ hmd hma hms
      exact ⟨h1, h2, h3, hmd, hma, hms⟩
    case isFalse => cases h

/-! ## Claim C5: the content validator gating name matches -/

/-- Modelled from the spec (§4.2) for comparison: the date validator as the
spec words it, accepting exactly when at least half of the sample parses
under one of the two conventions. -/
def specDateValidator (c : Column) : Bool :=
  let sample := (c.cells.filterMap id).take 10
  if sample.isEmpty then false
  else
    decide (2 * sample.countP (fun s => (parseConv false s).isSome)
      ≥ sample.length) ||
    decide (2 * sample.countP (fun s => (parseConv true s).isSome)
      ≥ sample.length)

theorem find?_conj_of_find? (l : List β) (p q : β → Bool) (x : β)
    (h : l.find? p = some x) (hq : q x = true) :
    l.find? (fun y => p y && q y) = some x := by
  induction l with
  | nil => cases h
  | cons a t ih =>
    by_cases hp : p a = true
    · have ha : (a :: t).find? p = some a := List.find?_cons_of_pos t hp
      rw [ha] at h
      injection h with h'
      subst h'
      exact List.find?_cons_of_pos t (by simp [hp, hq])
    · have ha : (a :: t).find? p = t.find? p :=
        List.find?_cons_of_neg t (by simpa using hp)
      rw [ha] at h
      have hconj : (a :: t).find? (fun y => p y && q y)
          = t.find? (fun y => p y && q y) :=
        List.find?_cons_of_neg t (by simp [Bool.eq_false_iff.mpr hp])
      rw [hconj]
      exact ih h

theorem find?_conj_none (l : List β) (p q : β → Bool)
    (h : ∀ y ∈ l, p y = true → q y = false) :
    l.find? (fun y => p y && q y) = none := by
  induction l with
  | nil => rfl
  | cons a t ih =>
    have ha : (p a && q a) = false := by
      cases hpa : p a
      · simp
      · simp [h a (List.mem_cons_self a t) hpa]
    have hf : (a :: t).find? (fun y => p y && q y)
        = t.find? (fun y => p y && q y) :=
      List.find?_cons_of_neg t (by simp [ha])
    rw [hf]
    exact ih (fun y hy => h y (List.mem_cons_of_mem a hy))

/-- Counterexample to C5 as stated: a column named `date` holding
`["2024-01-15", "abc", "xyz"]` has a 3-value sample of which only one value
(fewer than half) parses as a date, so the claim's validator rejects it and
the name match must be refused; but the code's threshold is
`max(1, 3 // 2) = 1`, so `is_date_series` accepts and the detector accepts
the name match. -/
theorem c5_counterexample :
    is_date_series ⟨"date", [some "2024-01-15", some "abc", some "xyz"], true⟩
      = true ∧
    specDateValidator ⟨"date", [some "2024-01-15", some "abc", some "xyz"], true⟩
      = false ∧
    2 * ([("2024-01-15" : String), "abc", "xyz"].countP
      (fun s => (parseConv false s).isSome)) < 3 ∧
    2 * ([("2024-01-15" : String), "abc", "xyz"].countP
      (fun s => (parseConv true s).isSome)) < 3 ∧
    find_column DATE_PATTERNS (some is_date_series)
      [⟨"date", [some "2024-01-15", some "abc", some "xyz"], true⟩]
      = some "date" :=
  ⟨by decide, by decide, by decide, by decide, by decide⟩

/-- C5 amended: a name match for the date role is accepted exactly when the
content validator passes — the first name-matching column whose validator
passes is returned, and when the validator fails on every name-matching
column no name match is accepted and the detector falls back to scanning
all columns — and the validator accepts exactly when the sample of up to
10 non-null values is non-empty and at least `max(1, ⌊n/2⌋)` of its `n`
values parse as calendar dates under the month-first or the day-first
convention. -/
theorem c5_amended_validator_gates_name_match :
    (∀ (cols : List Column) (pc : String × Column),
      (normalizedToOriginal cols).find?
        (fun p => nameMatches DATE_PATTERNS p.1) = some pc →
      is_date_series pc.2 = true →
      find_column DATE_PATTERNS (some is_date_series) cols = some pc.2.name) ∧
    (∀ cols : List Column,
      (∀ p ∈ normalizedToOriginal cols,
        nameMatches DATE_PATTERNS p.1 = true → is_date_series p.2 = false) →
      find_column DATE_PATTERNS (some is_date_series) cols
        = (cols.find? (fun c => is_date_series c)).map (fun c => c.name)) ∧
    (∀ c : Column,
      is_date_series c = true ↔
        (c.cells.filterMap id).take 10 ≠ [] ∧
        (max 1 (((c.cells.filterMap id).take 10).length / 2)
            ≤ ((c.cells.filterMap id).take 10).countP
                (fun s => (parseConv false s).isSome) ∨
         max 1 (((c.cells.filterMap id).take 10).length / 2)
            ≤ ((c.cells.filterMap id).take 10).countP
                (fun s => (parseConv true s).isSome))) := by
  refine ⟨?_, ?_, ?_⟩
  · intro cols pc hfind hv
    have hf := find?_conj_of_find? (normalizedToOriginal cols)
      (fun p => nameMatches DATE_PATTERNS p.1)
      (fun p => is_date_series p.2) pc hfind hv
    show (match (normalizedToOriginal cols).find?
        (fun p => nameMatches DATE_PATTERNS p.1 && is_date_series p.2) with
      | some p => some p.2.name
      | none => (cols.find? (fun c => is_date_series c)).map (fun c => c.name))
      = some pc.2.name
    rw [hf]
  · intro cols hall
    have hf := find?_conj_none (normalizedToOriginal cols)
      (fun p => nameMatches DATE_PATTERNS p.1)
      (fun p => is_date_series p.2) hall
    show (match (normalizedToOriginal cols).find?
        (fun p => nameMatches DATE_PATTERNS p.1 && is_date_series p.2) with
      | some p => some p.2.name
      | none => (cols.find? (fun c => is_date_series c)).map (fun c => c.name))
      = (cols.find? (fun c => is_date_series c)).map (fun c => c.name)
    rw [hf]
  · intro c
    unfold is_date_series
    dsimp only
    split_ifs with h1 h2
    · exact iff_of_false (by simp)
        (fun h => h.1 (by simpa using h1))
    · exact iff_of_true rfl
        ⟨by simpa using h1, Or.inl h2⟩
    · constructor
      · intro hc
        exact ⟨by simpa using h1, Or.inr (by simpa using hc)⟩
      · rintro ⟨_, hor | hor⟩
        · exact absurd hor h2
        · simpa using hor

/-- Witness for C5: a validly-dated column named `Date` is accepted at the
name stage; a column named `date` whose only value is garbage fails the
validator everywhere, so the scan falls back to content-only detection; and
the validator characterization instantiated at the clean column. -/
theorem c5_amended_validator_gates_name_match_witness :
    find_column DATE_PATTERNS (some is_date_series)
        [⟨"Date", [some "2024-01-15"], true⟩] = some "Date" ∧
    find_column DATE_PATTERNS (some is_date_series)
        [⟨"date", [some "abc"], true⟩]
      = (([⟨"date", [some "abc"], true⟩] : List Column).find?
          (fun c => is_date_series c)).map (fun c => c.name) ∧
    (is_date_series ⟨"Date", [some "2024-01-15"], true⟩ = true ↔
      (([some "2024-01-15"].filterMap id).take 10 ≠ [] ∧
        (max 1 ((([some "2024-01-15"].filterMap id).take 10).length / 2)
            ≤ (([some "2024-01-15"].filterMap id).take 10).countP
                (fun s => (parseConv false s).isSome) ∨
         max 1 ((([some "2024-01-15"].filterMap id).take 10).length / 2)
            ≤ (([some "2024-01-15"].filterMap id).take 10).countP
                (fun s => (parseConv true s).isSome)))) :=
  ⟨c5_amended_validator_gates_name_match.1
      [⟨"Date", [some "2024-01-15"], true⟩]
      ("date", ⟨"Date", [some "2024-01-15"], true⟩)
      (by decide) (by decide),
   c5_amended_validator_gates_name_match.2.1
      [⟨"date", [some "abc"], true⟩]
      (by decide),
   c5_amended_validator_gates_name_match.2.2
      ⟨"Date", [some "2024-01-15"], true⟩⟩

/-- Witness for C4 at a concrete table with plainly named, valid columns. -/
theorem c4_detection_all_or_nothing_witness :
    ([("Date", Role.date), ("Amount", Role.amount),
        ("Description", Role.descr)].length = 3) ∧
    (([("Date", Role.date), ("Amount", Role.amount),
        ("Description", Role.descr)].map Prod.fst).Nodup) ∧
    (([("Date", Role.date), ("Amount", Role.amount),
        ("Description", Role.descr)].map Prod.snd).Nodup) ∧
    Role.date ∈ [("Date", Role.date), ("Amount", Role.amount),
        ("Description", Role.descr)].map Prod.snd ∧
    Role.amount ∈ [("Date", Role.date), ("Amount", Role.amount),
        ("Description", Role.descr)].map Prod.snd ∧
    Role.descr ∈ [("Date", Role.date), ("Amount", Role.amount),
        ("Description", Role.descr)].map Prod.snd :=
  c4_detection_all_or_nothing
    [⟨"Date", [some "2024-01-15", some "2024-01-16"], true⟩,
     ⟨"Amount", [some "50.00", some "-1500.00"], true⟩,
     ⟨"Description", [some "Uber ride", some "Salary deposit"], true⟩]
    [("Date", Role.date), ("Amount", Role.amount), ("Description", Role.descr)]
    (by decide)

/-! ## Claim C8: manual column overrides -/

/-- C8 (code bug): the upload handler never reads the documented manual
column-name overrides — the produced mapping is identical whatever
overrides the request carries. Concretely, a request whose table has both a
`posted_date` and a `mydate` column of valid dates and whose `date_column`
override names `mydate` still has the date role assigned to `posted_date`
by automatic detection, even though `mydate` is present in the table and
would pass the date validator. -/
theorem c8_manual_overrides_ignored :
    (∀ (t : List Column) (d a de : Option String),
      uploadColumnMapping ⟨t, d, a, de⟩ = uploadColumnMapping ⟨t, none, none, none⟩) ∧
    uploadColumnMapping
        ⟨[⟨"posted_date", [some "2024-01-15"], true⟩,
          ⟨"mydate", [some "2024-02-20"], true⟩,
          ⟨"amt", [some "50.00"], true⟩,
          ⟨"narrative", [some "stuff"], true⟩],
         some "mydate", none, none⟩
      = some [("posted_date", Role.date), ("amt", Role.amount),
              ("narrative", Role.descr)] ∧
    "mydate" ∈ [⟨"posted_date", [some "2024-01-15"], true⟩,
          ⟨"mydate", [some "2024-02-20"], true⟩,
          ⟨"amt", [some "50.00"], true⟩,
          ⟨"narrative", [some "stuff"], true⟩].map Column.name ∧
    (∀ role : Role, ("mydate", role) ∉
      [("posted_date", Role.date), ("amt", Role.amount),
       ("narrative", Role.descr)]) ∧
    is_date_series ⟨"mydate", [some "2024-02-20"], true⟩ = true :=
  ⟨fun _ _ _ _ => rfl, by decide, by decide,
   by intro role; cases role <;> decide, by decide⟩

/-! ## Claim C9: category assignment with rule creation -/

/-- Modelled from the spec (§4.7) for comparison: the derived keyword as
the spec words it — the first one or two words of the description, or the
first 20 characters when the description has no spaces. -/
def specDeriveKeyword (descr : String) : String :=
  if descr.toList.contains ' ' then " ".intercalate ((pySplit descr).take 2)
  else String.mk (descr.toList.take 20)

/-- Counterexample to C9 as stated: on a 34-character description with no
spaces the claim derives the first 20 characters, but the code only takes
the 20-character prefix when the description has no words at all
(`split()` empty, i.e. empty or all-whitespace); here `split()` yields one
word, so the whole 34-character word becomes the keyword. -/
theorem c9_counterexample :
    deriveKeyword "Supercalifragilisticexpialidocious"
      = "Supercalifragilisticexpialidocious" ∧
    specDeriveKeyword "Supercalifragilisticexpialidocious"
      = "Supercalifragilistic" ∧
    deriveKeyword "Supercalifragilisticexpialidocious"
      ≠ specDeriveKeyword "Supercalifragilisticexpialidocious" :=
  ⟨by decide, by decide, by decide⟩

/-- C9 amended: assigning a category with rule creation derives the keyword
as the first one or two words of the description — falling back to the
first 20 raw characters only when the description has no words — upserts
the rule keyed by that keyword (so keyword keys stay unique and at most one
rule exists per keyword), and applies the category to exactly the other
currently-uncategorized expenses whose description contains the keyword
case-insensitively; the target expense itself gets the chosen category. -/
theorem c9_amended_assignment_with_rule (st : UCState) (eId catId : Nat)
    (e : Exp) (hfind : st.expenses.find? (fun x => x.ident == eId) = some e) :
    update_category st eId catId true =
      { expenses := st.expenses.map (fun x =>
          if x.ident == eId then { x with category := some catId }
          else if x.category == none &&
              strContains (lowerStr x.description)
                (lowerStr (deriveKeyword e.description)) then
            { x with category := some catId }
          else x),
        rules := dupsert (deriveKeyword e.description) catId st.rules } ∧
    ((st.rules.map Prod.fst).Nodup →
      ((dupsert (deriveKeyword e.description) catId st.rules).map Prod.fst).Nodup) ∧
    (pySplit e.description ≠ [] →
      deriveKeyword e.description
        = " ".intercalate ((pySplit e.description).take 2)) ∧
    (pySplit e.description = [] →
      deriveKeyword e.description = String.mk (e.description.toList.take 20)) := by
  refine ⟨?_, keys_nodup_dupsert _ _ _, ?_, ?_⟩
  · unfold update_category
    rw [hfind]
    dsimp only
    rw [if_pos rfl]
    congr 1
    rw [List.map_map]
    apply List.map_congr_left
    intro x _
    by_cases hid : (x.ident == eId) = true
    · simp [Function.comp, hid]
    · simp [Function.comp, hid]
  · intro hw
    unfold deriveKeyword
    cases hl : pySplit e.description with
    | nil => exact absurd hl hw
    | cons a t => simp [hl, List.take]
  · intro hw
    unfold deriveKeyword
    simp [hw]

/-- Witness for C9: one user with three expenses assigns category 7 to the
first; the keyword becomes the first two words, a rule is created, and the
other matching uncategorized expense is upgraded. -/
theorem c9_amended_assignment_with_rule_witness :
    update_category
        ⟨[⟨1, "Uber Eats Lagos", none⟩, ⟨2, "uber eats abuja", none⟩,
          ⟨3, "Taxi", none⟩], []⟩ 1 7 true
      = UCState.mk
          ([(⟨1, "Uber Eats Lagos", none⟩ : Exp),
            ⟨2, "uber eats abuja", none⟩, ⟨3, "Taxi", none⟩].map (fun x =>
              if x.ident == 1 then { x with category := some 7 }
              else if x.category == none &&
                  strContains (lowerStr x.description)
                    (lowerStr (deriveKeyword "Uber Eats Lagos")) then
                { x with category := some 7 }
              else x))
          (dupsert (deriveKeyword "Uber Eats Lagos") 7 []) ∧
    ((([] : List (String × Nat)).map Prod.fst).Nodup →
      ((dupsert (deriveKeyword "Uber Eats Lagos") 7 []).map Prod.fst).Nodup) ∧
    (pySplit "Uber Eats Lagos" ≠ [] →
      deriveKeyword "Uber Eats Lagos"
        = " ".intercalate ((pySplit "Uber Eats Lagos").take 2)) ∧
    (pySplit "Uber Eats Lagos" = [] →
      deriveKeyword "Uber Eats Lagos"
        = String.mk ("Uber Eats Lagos".toList.take 20)) :=
  c9_amended_assignment_with_rule
    ⟨[⟨1, "Uber Eats Lagos", none⟩, ⟨2, "uber eats abuja", none⟩,
      ⟨3, "Taxi", none⟩], []⟩ 1 7 ⟨1, "Uber Eats Lagos", none⟩ (by decide)

end FinTrackr

